import Mathlib

/-!
# network-monitor — verification of the telemetry store and collectors

Shallow embedding of the Go sources of `network-monitor`:

* `internal/storage` (the `Store` with `UpdateInterface`, `UpdateDevice`,
  `StorePingData`, `GetInterfaces`, `GetDevices`, `GetPings`),
* the ping collector (`pingHost` with ICMP→TCP fallback),
* the device discovery collector (`pingSweep` / `incIP`).

Modelling conventions:

* `time.Time` and `time.Duration` are `Int` (nanoseconds).  `time.Duration`
  division (`total / time.Duration(count)`) is Go `int64` division, which
  truncates toward zero: `Int.div`.
* `float64` fields (`SpeedRx/Tx`, `PacketLoss`) are modelled as `ℚ`, i.e. the
  exact real arithmetic the formulas denote; all concrete values appearing in
  the claims are exactly representable.
* `uint64` byte counters are `Nat`; Go `uint64` subtraction wraps modulo
  `2^64`, modelled by `u64sub`.
* Go maps are association lists (`GoMap`): insertion replaces an existing key
  in place and otherwise appends.
* Mutation through pointers: inside the `storage` API every update reads and
  rewrites the entry of one key under the exclusive lock, so the value-level
  `Store` below is observationally equivalent.  The pointer structure matters
  only for the snapshot (`Get*`) functions, which are additionally modelled
  on an explicit heap (`PtrStore`) where an address is an index.
-/

/-- `MaxHistoryPoints = 100` from the storage package. -/
def MaxHistoryPoints : Nat := 100

/-- `MaxDevices = 256` from the storage package (declared, unused by the claims). -/
def MaxDevices : Nat := 256

/-- 2^64, the modulus of Go `uint64` arithmetic. -/
def u64 : Nat := 2 ^ 64

/-- Go `uint64` subtraction `a - b`: wraps around modulo `2^64`. -/
def u64sub (a b : Nat) : Nat := (a % u64 + (u64 - b % u64)) % u64

/-- 5 minutes in nanoseconds (`5 * time.Minute`). -/
def fiveMinutes : Int := 300000000000

/-- A Go map, as an association list (keys of a Go map are distinct). -/
abbrev GoMap (α : Type) : Type := List (String × α)

/-- Go map lookup `m[k]`. -/
def mapLookup {α : Type} : GoMap α → String → Option α
  | [], _ => none
  | (k', v) :: t, k => if k' = k then some v else mapLookup t k

/-- Go map assignment `m[k] = v`: replace in place, else add. -/
def mapInsert {α : Type} : GoMap α → String → α → GoMap α
  | [], k, v => [(k, v)]
  | (k', v') :: t, k, v =>
      if k' = k then (k, v) :: t else (k', v') :: mapInsert t k v

/-- `storage.DataPoint`. -/
structure DataPoint where
  Timestamp : Int
  BytesRx   : Nat
  BytesTx   : Nat
  SpeedRx   : ℚ
  SpeedTx   : ℚ
deriving DecidableEq

/-- `storage.InterfaceStats`. -/
structure InterfaceStats where
  Name      : String
  BytesRx   : Nat
  BytesTx   : Nat
  PacketsRx : Nat
  PacketsTx : Nat
  SpeedRx   : ℚ
  SpeedTx   : ℚ
  History   : List DataPoint
  LastCheck : Int
deriving DecidableEq

/-- `storage.Device`. -/
structure Device where
  IP       : String
  MAC      : String
  Hostname : String
  LastSeen : Int
  IsActive : Bool
  Vendor   : String
deriving DecidableEq

/-- `storage.PingPoint`. -/
structure PingPoint where
  Timestamp : Int
  Latency   : Int
  Success   : Bool
deriving DecidableEq

/-- `storage.PingStats`. -/
structure PingStats where
  Host        : String
  LastLatency : Int
  AvgLatency  : Int
  PacketLoss  : ℚ
  TotalPings  : Int
  FailedPings : Int
  History     : List PingPoint
  LastUpdated : Int
deriving DecidableEq

/-- `storage.Store` (the lock guards atomicity; each operation below is one
critical section). -/
structure Store where
  Interfaces  : GoMap InterfaceStats
  Devices     : GoMap Device
  PingResults : GoMap PingStats
  LastUpdated : Int
deriving DecidableEq

/-- `storage.NewStore()` (creation time taken as 0). -/
def Store.new : Store := ⟨[], [], [], 0⟩

/-- `h = append(h, x); if len(h) > MaxHistoryPoints { h = h[1:] }` —
the history push shared by `UpdateInterface` and `StorePingData`. -/
def pushBounded {α : Type} (h : List α) (x : α) : List α :=
  let h2 := h ++ [x]
  if MaxHistoryPoints < h2.length then h2.drop 1 else h2

/-- Elapsed seconds `now.Sub(last).Seconds()` as an exact rational. -/
def elapsedSeconds (now last : Int) : ℚ := ((now - last : Int) : ℚ) / 1000000000

/-- Receive speed after an `UpdateInterface` call on an existing entry:
`float64(bytesRx-iface.BytesRx) / timeDiff` when `timeDiff > 0` (the `uint64`
subtraction wraps), the previous value otherwise. -/
def ifaceSpeedRx (iface : InterfaceStats) (now : Int) (bytesRx : Nat) : ℚ :=
  let timeDiff := elapsedSeconds now iface.LastCheck
  if 0 < timeDiff then (u64sub bytesRx iface.BytesRx : ℚ) / timeDiff else iface.SpeedRx

/-- Send speed, same computation as `ifaceSpeedRx`. -/
def ifaceSpeedTx (iface : InterfaceStats) (now : Int) (bytesTx : Nat) : ℚ :=
  let timeDiff := elapsedSeconds now iface.LastCheck
  if 0 < timeDiff then (u64sub bytesTx iface.BytesTx : ℚ) / timeDiff else iface.SpeedTx

/-- The history `DataPoint` an `UpdateInterface` call builds on an existing
entry: the timestamp, the new cumulative counters, the post-update speeds. -/
def mkIfacePoint (iface : InterfaceStats) (now : Int) (bytesRx bytesTx : Nat) :
    DataPoint :=
  ⟨now, bytesRx, bytesTx, ifaceSpeedRx iface now bytesRx, ifaceSpeedTx iface now bytesTx⟩

/-- Body of `Store.UpdateInterface` for an existing entry `iface`. -/
def updateIfaceStats (iface : InterfaceStats) (now : Int)
    (bytesRx bytesTx packetsRx packetsTx : Nat) : InterfaceStats :=
  let speedRx := ifaceSpeedRx iface now bytesRx
  let speedTx := ifaceSpeedTx iface now bytesTx
  let point := mkIfacePoint iface now bytesRx bytesTx
  { iface with
      SpeedRx := speedRx
      SpeedTx := speedTx
      History := pushBounded iface.History point
      BytesRx := bytesRx
      BytesTx := bytesTx
      PacketsRx := packetsRx
      PacketsTx := packetsTx
      LastCheck := now }

/-- `Store.UpdateInterface(name, bytesRx, bytesTx, packetsRx, packetsTx)`;
`now` is the value of `time.Now()` inside the call. -/
def Store.updateInterface (s : Store) (now : Int) (name : String)
    (bytesRx bytesTx packetsRx packetsTx : Nat) : Store :=
  let entry :=
    match mapLookup s.Interfaces name with
    | some iface => updateIfaceStats iface now bytesRx bytesTx packetsRx packetsTx
    | none =>
        { Name := name, BytesRx := bytesRx, BytesTx := bytesTx,
          PacketsRx := packetsRx, PacketsTx := packetsTx,
          SpeedRx := 0, SpeedTx := 0, History := [], LastCheck := now }
  { s with Interfaces := mapInsert s.Interfaces name entry, LastUpdated := now }

/-- `Store.UpdateDevice(ip, mac, hostname)`; `now` is `time.Now()`.
Note: it does not touch `s.LastUpdated`. -/
def Store.updateDevice (s : Store) (now : Int) (ip mac hostname : String) : Store :=
  let entry :=
    match mapLookup s.Devices ip with
    | some d =>
        { d with
            LastSeen := now
            IsActive := true
            Hostname := if hostname ≠ "" ∧ d.Hostname = "" then hostname else d.Hostname
            MAC := if mac ≠ "" ∧ d.MAC = "" then mac else d.MAC }
    | none =>
        { IP := ip, MAC := mac, Hostname := hostname,
          LastSeen := now, IsActive := true, Vendor := "" }
  { s with Devices := mapInsert s.Devices ip entry }

/-- Body of `Store.StorePingData` for an existing entry `ping`. -/
def updatePingStats (ping : PingStats) (now rtt : Int) (success : Bool) : PingStats :=
  let totalPings := ping.TotalPings + 1
  let failedPings := if success then ping.FailedPings else ping.FailedPings + 1
  let lastLatency := if success then rtt else ping.LastLatency
  let packetLoss : ℚ := (failedPings : ℚ) / (totalPings : ℚ) * 100
  let avgLatency :=
    if success ∧ 0 < ping.History.length then
      let succPoints := ping.History.filter (fun p => p.Success)
      let total := rtt + (succPoints.map (fun p => p.Latency)).sum
      let count := 1 + (succPoints.length : Int)
      Int.tdiv total count
    else ping.AvgLatency
  { ping with
      TotalPings := totalPings
      FailedPings := failedPings
      LastLatency := lastLatency
      PacketLoss := packetLoss
      AvgLatency := avgLatency
      History := pushBounded ping.History ⟨now, rtt, success⟩
      LastUpdated := now }

/-- The new-target branch of `Store.StorePingData`. -/
def initPingStats (host : String) (now rtt : Int) (success : Bool) : PingStats :=
  let avgLatency := if success then rtt else 0
  let packetLoss : ℚ := if success then 0 else 100
  let failedPings : Int := if success then 0 else 1
  { Host := host, LastLatency := rtt, AvgLatency := avgLatency,
    PacketLoss := packetLoss, TotalPings := 1, FailedPings := failedPings,
    History := [⟨now, rtt, success⟩], LastUpdated := now }

/-- `Store.StorePingData(host, rtt, success, method)`; `now` is `time.Now()`.
The `method` parameter is accepted and ignored, as in the source. -/
def Store.storePingData (s : Store) (now : Int) (host : String) (rtt : Int)
    (success : Bool) (method : String) : Store :=
  let _ := method
  let entry :=
    match mapLookup s.PingResults host with
    | some ping => updatePingStats ping now rtt success
    | none => initPingStats host now rtt success
  { s with PingResults := mapInsert s.PingResults host entry, LastUpdated := now }

/-! ## Pointer-level model of the snapshot operations

A Go `map[string]*T` is a `GoMap Nat` of addresses into a heap (a list of
`T`, an address being an index).  `GetInterfaces` and `GetPings` execute
`result[k] = v`, copying the pointers into a fresh map; `GetDevices` executes
`device := *v; ...; result[k] = &device`, allocating a fresh cell per entry. -/

/-- A store map together with the heap its pointers live in. -/
structure PtrStore (α : Type) where
  entries : GoMap Nat
  heap    : List α
deriving DecidableEq

/-- Heap dereference (index read). -/
def heapGet {α : Type} : List α → Nat → Option α
  | [], _ => none
  | x :: _, 0 => some x
  | _ :: t, n + 1 => heapGet t n

/-- Heap store (index write); out-of-range writes are dropped. -/
def heapSet {α : Type} : List α → Nat → α → List α
  | [], _, _ => []
  | _ :: t, 0, v => v :: t
  | x :: t, n + 1, v => x :: heapSet t n v

/-- Read the value stored under key `k`: follow the map's pointer into the heap. -/
def readKey {α : Type} (s : PtrStore α) (k : String) : Option α :=
  match mapLookup s.entries k with
  | some a => heapGet s.heap a
  | none => none

/-- All pointers of the map are live in the heap. -/
def PtrStore.valid {α : Type} (s : PtrStore α) : Prop :=
  ∀ p ∈ s.entries, p.2 < s.heap.length

/-- `Store.GetInterfaces`: `result := make(map); for k, v := range s.Interfaces
{ result[k] = v }` — the fresh map receives the same pointers. -/
def getInterfacesP (s : PtrStore InterfaceStats) : GoMap Nat :=
  s.entries.map (fun p => (p.1, p.2))

/-- `Store.GetPings`: same pointer-copying loop as `GetInterfaces`. -/
def getPingsP (s : PtrStore PingStats) : GoMap Nat :=
  s.entries.map (fun p => (p.1, p.2))

/-- The per-entry body of `Store.GetDevices`: `device := *v; if
device.LastSeen.Before(cutoff) { device.IsActive = false }` with
`cutoff = now − 5min` (`Before` is a strict comparison). -/
def snapshotDevice (now : Int) (d : Device) : Device :=
  if d.LastSeen < now - fiveMinutes then { d with IsActive := false } else d

/-- The loop of `Store.GetDevices`: walk the stored entries, dereference each
pointer in the (growing) heap, allocate a copy adjusted by `snapshotDevice`,
and bind the key to the fresh address in the result map. -/
def getDevicesGo (now : Int) : GoMap Nat → GoMap Nat → List Device → PtrStore Device
  | [], resE, heap => ⟨resE, heap⟩
  | p :: rest, resE, heap =>
      match heapGet heap p.2 with
      | some d =>
          getDevicesGo now rest (mapInsert resE p.1 heap.length)
            (heap ++ [snapshotDevice now d])
      | none => getDevicesGo now rest resE heap

/-- `Store.GetDevices`; `now` is `time.Now()`.  Returns the snapshot map and
the heap extended by the freshly allocated device copies. -/
def getDevicesP (now : Int) (s : PtrStore Device) : PtrStore Device :=
  getDevicesGo now s.entries [] s.heap

/-! ## Ping collector: `pingHost` with ICMP→TCP fallback

The network is modelled by the outcome environment: `icmpRes` is the result
of `pingICMP` (`some rtt` on verified success, `none` on any failure) and
`tcp port` is the result of `tcpPing` on a given port. -/

/-- `PingResult` from the collector package (the `Error` field is dropped:
it only feeds logging). -/
structure PingResult where
  Host    : String
  RTT     : Int
  Success : Bool
  Method  : String
deriving DecidableEq

/-- `tcpPorts := []string{"80", "443", "53", "22"}`. -/
def tcpPorts : List String := ["80", "443", "53", "22"]

/-- The fallback loop of `pingHost`: try each port in order, return the
first success together with the port used. -/
def tcpFallback (tcp : String → Option Int) : List String → Option (String × Int)
  | [] => none
  | p :: ps =>
      match tcp p with
      | some rtt => some (p, rtt)
      | none => tcpFallback tcp ps

/-- `pingHost(host)`: ICMP first; on ICMP failure walk `tcpPorts` until the
first TCP connect succeeds (method `"TCP:<port>"`); otherwise a failed
result with method `"FAILED"` and zero RTT. -/
def pingHost (host : String) (icmpRes : Option Int) (tcp : String → Option Int) :
    PingResult :=
  match icmpRes with
  | some rtt => ⟨host, rtt, true, "ICMP"⟩
  | none =>
      match tcpFallback tcp tcpPorts with
      | some (p, rtt) => ⟨host, rtt, true, "TCP:" ++ p⟩
      | none => ⟨host, 0, false, "FAILED"⟩

/-! ## Device discovery: `pingSweep`

An IPv4 address is a `Nat < 2^32`; a parsed CIDR subnet is its (masked) base
address and prefix length `m`.  The Go loop starts at
`ipnet.IP.Mask(ipnet.Mask)` (the network address), advances with `incIP`
(+1 with carry) while `ipnet.Contains(ip)` holds — i.e. it enumerates
`network .. network + 2^(32−m) − 1` — and skips an address iff its
dotted-quad string ends in `".0"` or `".255"`, i.e. iff its last octet is
0 or 255.  The addresses surviving the filter are the ones probed
(`dc.ping` is called on exactly these). -/

/-- Number of host bits of a prefix length. -/
def hostBits (m : Nat) : Nat := 32 - m

/-- `ipnet.IP.Mask(ipnet.Mask)`: clear the host bits of the base address. -/
def networkAddr (base m : Nat) : Nat := base / 2 ^ hostBits m * 2 ^ hostBits m

/-- The all-ones host-part address of the subnet. -/
def broadcastAddr (base m : Nat) : Nat := networkAddr base m + (2 ^ hostBits m - 1)

/-- Every address the subnet contains, in iteration order. -/
def subnetAddrs (base m : Nat) : List Nat :=
  (List.range (2 ^ hostBits m)).map (fun i => networkAddr base m + i)

/-- The addresses `pingSweep` probes: the subnet minus the addresses whose
last octet is 0 or 255 (the dotted-string suffix test of the source). -/
def pingSweepTargets (base m : Nat) : List Nat :=
  (subnetAddrs base m).filter (fun a => ¬ (a % 256 = 0 ∨ a % 256 = 255))

/-! ## Call sequences -/

/-- One `UpdateInterface` call (the `now` of its `time.Now()` plus arguments). -/
structure IfaceCall where
  now : Int
  bytesRx : Nat
  bytesTx : Nat
  packetsRx : Nat
  packetsTx : Nat
deriving DecidableEq

/-- One `StorePingData` call. -/
structure PingCall where
  now : Int
  rtt : Int
  success : Bool
  method : String
deriving DecidableEq

/-- One `UpdateDevice` call. -/
structure DevCall where
  now : Int
  mac : String
  hostname : String
deriving DecidableEq

/-- Run a sequence of `UpdateInterface` calls on one interface name. -/
def runIface (s : Store) (name : String) (calls : List IfaceCall) : Store :=
  calls.foldl
    (fun s c => s.updateInterface c.now name c.bytesRx c.bytesTx c.packetsRx c.packetsTx) s

/-- Run a sequence of `StorePingData` calls on one host. -/
def runPing (s : Store) (host : String) (calls : List PingCall) : Store :=
  calls.foldl (fun s c => s.storePingData c.now host c.rtt c.success c.method) s

/-- Run a sequence of `UpdateDevice` calls on one IP. -/
def runDev (s : Store) (ip : String) (calls : List DevCall) : Store :=
  calls.foldl (fun s c => s.updateDevice c.now ip c.mac c.hostname) s

/-- The `PingPoint` a `StorePingData` call appends. -/
def pingPointOf (c : PingCall) : PingPoint := ⟨c.now, c.rtt, c.success⟩

/-- The per-call step on an existing `PingStats` entry. -/
def pingStep (p : PingStats) (c : PingCall) : PingStats :=
  updatePingStats p c.now c.rtt c.success

/-- The per-call step on an existing `InterfaceStats` entry. -/
def ifaceStep (st : InterfaceStats) (c : IfaceCall) : InterfaceStats :=
  updateIfaceStats st c.now c.bytesRx c.bytesTx c.packetsRx c.packetsTx

/-- The `DataPoint` appended by an `UpdateInterface` call on state `st`. -/
def ifacePointOf (st : InterfaceStats) (c : IfaceCall) : DataPoint :=
  mkIfacePoint st c.now c.bytesRx c.bytesTx

/-- The sequence of `DataPoint`s a call sequence appends, starting from `st`. -/
def appendedPoints : InterfaceStats → List IfaceCall → List DataPoint
  | _, [] => []
  | st, c :: cs => ifacePointOf st c :: appendedPoints (ifaceStep st c) cs

/-- The fresh entry created by `UpdateInterface` for an unseen name. -/
def freshIface (name : String) (c : IfaceCall) : InterfaceStats :=
  { Name := name, BytesRx := c.bytesRx, BytesTx := c.bytesTx,
    PacketsRx := c.packetsRx, PacketsTx := c.packetsTx,
    SpeedRx := 0, SpeedTx := 0, History := [], LastCheck := c.now }

/-- The last `n` elements of a list, in order. -/
def lastN {α : Type} (n : Nat) (l : List α) : List α := l.drop (l.length - n)

/-- First non-empty string of a list, `""` if none. -/
def firstNonEmpty (l : List String) : String :=
  (l.find? (fun x => x ≠ "")).getD ""

/-- The per-call step on an existing `Device` entry (the `exists` branch of
`UpdateDevice`). -/
def devStep (d : Device) (c : DevCall) : Device :=
  { d with
      LastSeen := c.now
      IsActive := true
      Hostname := if c.hostname ≠ "" ∧ d.Hostname = "" then c.hostname else d.Hostname
      MAC := if c.mac ≠ "" ∧ d.MAC = "" then c.mac else d.MAC }

/-! ## Map lemmas -/

theorem mapLookup_insert_self {α : Type} (m : GoMap α) (k : String) (v : α) :
    mapLookup (mapInsert m k v) k = some v := by
  induction m with
  | nil => simp [mapInsert, mapLookup]
  | cons p t ih =>
      obtain ⟨k', v'⟩ := p
      by_cases h : k' = k
      · simp [mapInsert, h, mapLookup]
      · simp [mapInsert, h, mapLookup, ih]

theorem mapLookup_insert_ne {α : Type} (m : GoMap α) {k k' : String} (h : k' ≠ k)
    (v : α) : mapLookup (mapInsert m k v) k' = mapLookup m k' := by
  induction m with
  | nil => simp [mapInsert, mapLookup, Ne.symm h]
  | cons p t ih =>
      obtain ⟨k₀, v₀⟩ := p
      by_cases hk : k₀ = k
      · subst hk
        simp [mapInsert, mapLookup, Ne.symm h]
      · simp only [mapInsert, if_neg hk]
        by_cases hk' : k₀ = k'
        · simp [mapLookup, hk']
        · simp [mapLookup, hk', ih]

theorem mem_mapInsert {α : Type} {m : GoMap α} {k : String} {v : α}
    {p : String × α} (h : p ∈ mapInsert m k v) : p = (k, v) ∨ p ∈ m := by
  induction m with
  | nil => simpa [mapInsert] using h
  | cons q t ih =>
      obtain ⟨k₀, v₀⟩ := q
      by_cases hk : k₀ = k
      · simp only [mapInsert, if_pos hk, List.mem_cons] at h
        rcases h with h | h
        · exact Or.inl h
        · exact Or.inr (List.mem_cons_of_mem _ h)
      · simp only [mapInsert, if_neg hk, List.mem_cons] at h
        rcases h with h | h
        · exact Or.inr (h ▸ List.mem_cons_self _ _)
        · rcases ih h with h' | h'
          · exact Or.inl h'
          · exact Or.inr (List.mem_cons_of_mem _ h')

theorem mem_mapInsert_self {α : Type} (m : GoMap α) (k : String) (v : α) :
    (k, v) ∈ mapInsert m k v := by
  induction m with
  | nil => simp [mapInsert]
  | cons q t ih =>
      obtain ⟨k₀, v₀⟩ := q
      by_cases hk : k₀ = k
      · simp [mapInsert, hk]
      · simp only [mapInsert, if_neg hk, List.mem_cons]
        exact Or.inr ih

theorem mem_mapInsert_of_ne {α : Type} {m : GoMap α} {p : String × α}
    (hp : p ∈ m) {k : String} (hk : p.1 ≠ k) (v : α) : p ∈ mapInsert m k v := by
  induction m with
  | nil => simp at hp
  | cons q t ih =>
      obtain ⟨k₀, v₀⟩ := q
      rcases List.mem_cons.1 hp with h | h
      · subst h
        simp only [mapInsert]
        rw [if_neg hk]
        exact List.mem_cons_self _ _
      · by_cases hq : k₀ = k
        · simp only [mapInsert, if_pos hq, List.mem_cons]
          exact Or.inr h
        · simp only [mapInsert, if_neg hq, List.mem_cons]
          exact Or.inr (ih h)

/-! ## Heap lemmas -/

theorem heapGet_append_lt {α : Type} {l : List α} {a : Nat} (h : a < l.length)
    (l₂ : List α) : heapGet (l ++ l₂) a = heapGet l a := by
  induction l generalizing a with
  | nil => simp at h
  | cons x t ih =>
      cases a with
      | zero => rfl
      | succ n => exact ih (by simpa using h)

theorem heapGet_append_self {α : Type} (l : List α) (x : α) (l₂ : List α) :
    heapGet (l ++ x :: l₂) l.length = some x := by
  induction l with
  | nil => rfl
  | cons y t ih => simpa [heapGet] using ih

theorem heapGet_lt_length {α : Type} {l : List α} {a : Nat} {x : α}
    (h : heapGet l a = some x) : a < l.length := by
  induction l generalizing a with
  | nil => simp [heapGet] at h
  | cons y t ih =>
      cases a with
      | zero => simp
      | succ n => simpa using ih h

theorem heapGet_append_of_some {α : Type} {l : List α} {a : Nat} {x : α}
    (h : heapGet l a = some x) (l₂ : List α) : heapGet (l ++ l₂) a = some x := by
  rw [heapGet_append_lt (heapGet_lt_length h)]
  exact h

theorem heapGet_heapSet_ne {α : Type} {a b : Nat} (h : b ≠ a) (l : List α)
    (v : α) : heapGet (heapSet l a v) b = heapGet l b := by
  induction l generalizing a b with
  | nil => rfl
  | cons x t ih =>
      cases a with
      | zero =>
          cases b with
          | zero => exact absurd rfl h
          | succ m => rfl
      | succ n =>
          cases b with
          | zero => rfl
          | succ m => exact ih (fun hh => h (congrArg Nat.succ hh))

/-! ## History (`pushBounded` / `lastN`) lemmas -/

theorem lastN_length {α : Type} (n : Nat) (l : List α) :
    (lastN n l).length = min n l.length := by
  simp only [lastN, List.length_drop]
  omega

theorem lastN_of_le {α : Type} {n : Nat} {l : List α} (h : l.length ≤ n) :
    lastN n l = l := by
  simp [lastN, Nat.sub_eq_zero_of_le h]

theorem lastN_nil {α : Type} (n : Nat) : lastN n ([] : List α) = [] := by
  simp [lastN]

theorem lastN_append_single {α : Type} (n : Nat) (a : List α) (x : α) :
    lastN n (lastN n a ++ [x]) = lastN n (a ++ [x]) := by
  rcases le_or_lt a.length n with h | h
  · rw [lastN_of_le h]
  · rcases Nat.eq_zero_or_pos n with hn | hn
    · subst hn
      have hz : ∀ (y : List α), lastN 0 y = [] := by
        intro y
        simp [lastN, List.drop_length]
      rw [hz, hz]
    · have hlen : (lastN n a).length = n := by
        rw [lastN_length]; omega
      have hk : a.length - n + 1 ≤ a.length := by omega
      have e1 : lastN n (lastN n a ++ [x]) = (lastN n a).drop 1 ++ [x] := by
        rw [lastN, List.length_append, hlen]
        have : n + [x].length - n = 1 := by simp
        rw [this, List.drop_append_of_le_length (by omega)]
      have e2 : lastN n (a ++ [x]) = a.drop (a.length - n + 1) ++ [x] := by
        rw [lastN, List.length_append]
        have : a.length + [x].length - n = a.length - n + 1 := by
          simp only [List.length_cons, List.length_nil]
          omega
        rw [this, List.drop_append_of_le_length hk]
      rw [e1, e2, lastN, List.drop_drop]

theorem pushBounded_eq_lastN {α : Type} {h : List α}
    (hh : h.length ≤ MaxHistoryPoints) (x : α) :
    pushBounded h x = lastN MaxHistoryPoints (h ++ [x]) := by
  simp only [pushBounded, lastN, List.length_append, List.length_cons,
    List.length_nil]
  by_cases hc : MaxHistoryPoints < h.length + 0 + 1
  · rw [if_pos hc]
    have : h.length + 0 + 1 - MaxHistoryPoints = 1 := by
      simp only [MaxHistoryPoints] at *
      omega
    rw [this]
  · rw [if_neg hc]
    have : h.length + 0 + 1 - MaxHistoryPoints = 0 := by omega
    rw [this]
    exact (List.drop_zero _).symm

theorem pushBounded_of_lt {α : Type} {h : List α}
    (hh : h.length < MaxHistoryPoints) (x : α) : pushBounded h x = h ++ [x] := by
  simp only [pushBounded]
  rw [if_neg (by simp; omega)]

/-! ## Store-level lookup lemmas -/

theorem runPing_cons (s : Store) (host : String) (c : PingCall) (cs : List PingCall) :
    runPing s host (c :: cs) =
      runPing (s.storePingData c.now host c.rtt c.success c.method) host cs := rfl

theorem runIface_cons (s : Store) (name : String) (c : IfaceCall) (cs : List IfaceCall) :
    runIface s name (c :: cs) =
      runIface (s.updateInterface c.now name c.bytesRx c.bytesTx c.packetsRx c.packetsTx)
        name cs := rfl

theorem runDev_cons (s : Store) (ip : String) (c : DevCall) (cs : List DevCall) :
    runDev s ip (c :: cs) =
      runDev (s.updateDevice c.now ip c.mac c.hostname) ip cs := rfl

theorem storePingData_lookup_some {s : Store} {host : String} {p : PingStats}
    (h : mapLookup s.PingResults host = some p) (now rtt : Int) (success : Bool)
    (method : String) :
    mapLookup (s.storePingData now host rtt success method).PingResults host =
      some (updatePingStats p now rtt success) := by
  simp only [Store.storePingData, h]
  exact mapLookup_insert_self _ _ _

theorem storePingData_lookup_none {s : Store} {host : String}
    (h : mapLookup s.PingResults host = none) (now rtt : Int) (success : Bool)
    (method : String) :
    mapLookup (s.storePingData now host rtt success method).PingResults host =
      some (initPingStats host now rtt success) := by
  simp only [Store.storePingData, h]
  exact mapLookup_insert_self _ _ _

theorem updateInterface_lookup_some {s : Store} {name : String} {st : InterfaceStats}
    (h : mapLookup s.Interfaces name = some st) (now : Int)
    (bytesRx bytesTx packetsRx packetsTx : Nat) :
    mapLookup (s.updateInterface now name bytesRx bytesTx packetsRx packetsTx).Interfaces
      name = some (updateIfaceStats st now bytesRx bytesTx packetsRx packetsTx) := by
  simp only [Store.updateInterface, h]
  exact mapLookup_insert_self _ _ _

theorem updateInterface_lookup_none {s : Store} {name : String}
    (h : mapLookup s.Interfaces name = none) (c : IfaceCall) :
    mapLookup (s.updateInterface c.now name c.bytesRx c.bytesTx c.packetsRx
      c.packetsTx).Interfaces name = some (freshIface name c) := by
  simp only [Store.updateInterface, h, freshIface]
  exact mapLookup_insert_self _ _ _

theorem updateDevice_lookup_some {s : Store} {ip : String} {d : Device}
    (h : mapLookup s.Devices ip = some d) (now : Int) (mac hostname : String) :
    mapLookup (s.updateDevice now ip mac hostname).Devices ip =
      some (devStep d ⟨now, mac, hostname⟩) := by
  simp only [Store.updateDevice, h, devStep]
  exact mapLookup_insert_self _ _ _

theorem updateDevice_lookup_none {s : Store} {ip : String}
    (h : mapLookup s.Devices ip = none) (now : Int) (mac hostname : String) :
    mapLookup (s.updateDevice now ip mac hostname).Devices ip =
      some ⟨ip, mac, hostname, now, true, ""⟩ := by
  simp only [Store.updateDevice, h]
  exact mapLookup_insert_self _ _ _

theorem runPing_lookup : ∀ (cs : List PingCall) (s : Store) (host : String)
    (p : PingStats), mapLookup s.PingResults host = some p →
    mapLookup (runPing s host cs).PingResults host = some (cs.foldl pingStep p)
  | [], _, _, _, h => h
  | c :: cs, s, host, p, h => by
      rw [runPing_cons, List.foldl_cons]
      exact runPing_lookup cs _ host _
        (storePingData_lookup_some h c.now c.rtt c.success c.method)

theorem runIface_lookup : ∀ (cs : List IfaceCall) (s : Store) (name : String)
    (st : InterfaceStats), mapLookup s.Interfaces name = some st →
    mapLookup (runIface s name cs).Interfaces name = some (cs.foldl ifaceStep st)
  | [], _, _, _, h => h
  | c :: cs, s, name, st, h => by
      rw [runIface_cons, List.foldl_cons]
      exact runIface_lookup cs _ name _
        (updateInterface_lookup_some h c.now c.bytesRx c.bytesTx c.packetsRx c.packetsTx)

theorem runDev_lookup : ∀ (cs : List DevCall) (s : Store) (ip : String)
    (d : Device), mapLookup s.Devices ip = some d →
    mapLookup (runDev s ip cs).Devices ip = some (cs.foldl devStep d)
  | [], _, _, _, h => h
  | c :: cs, s, ip, d, h => by
      rw [runDev_cons, List.foldl_cons]
      exact runDev_lookup cs _ ip _
        (updateDevice_lookup_some h c.now c.mac c.hostname)

/-! ## History evolution -/

theorem pingStep_history (p : PingStats) (c : PingCall) :
    (pingStep p c).History = pushBounded p.History (pingPointOf c) := rfl

theorem ifaceStep_history (st : InterfaceStats) (c : IfaceCall) :
    (ifaceStep st c).History = pushBounded st.History (ifacePointOf st c) := rfl

theorem foldPing_history : ∀ (cs : List PingCall) (p : PingStats)
    (pts : List PingPoint), p.History = lastN MaxHistoryPoints pts →
    (cs.foldl pingStep p).History =
      lastN MaxHistoryPoints (pts ++ cs.map pingPointOf)
  | [], p, pts, h => by simpa using h
  | c :: cs, p, pts, h => by
      rw [List.foldl_cons]
      have hlen : p.History.length ≤ MaxHistoryPoints := by
        rw [h, lastN_length]; omega
      have hstep : (pingStep p c).History =
          lastN MaxHistoryPoints (pts ++ [pingPointOf c]) := by
        rw [pingStep_history, h, pushBounded_eq_lastN (by rw [lastN_length]; omega),
          lastN_append_single]
      have := foldPing_history cs (pingStep p c) (pts ++ [pingPointOf c]) hstep
      rw [this, List.map_cons, List.append_assoc]
      rfl

theorem foldIface_history : ∀ (cs : List IfaceCall) (st : InterfaceStats)
    (pts : List DataPoint), st.History = lastN MaxHistoryPoints pts →
    (cs.foldl ifaceStep st).History =
      lastN MaxHistoryPoints (pts ++ appendedPoints st cs)
  | [], st, pts, h => by simpa [appendedPoints] using h
  | c :: cs, st, pts, h => by
      rw [List.foldl_cons]
      have hstep : (ifaceStep st c).History =
          lastN MaxHistoryPoints (pts ++ [ifacePointOf st c]) := by
        rw [ifaceStep_history, h, pushBounded_eq_lastN (by rw [lastN_length]; omega),
          lastN_append_single]
      have := foldIface_history cs (ifaceStep st c) (pts ++ [ifacePointOf st c]) hstep
      rw [this, appendedPoints, List.append_assoc]
      rfl

/-! ## Claim theorems -/

/-- C1: after every `StorePingData` call on a host, the stored entry satisfies
`PacketLoss = 100 * FailedPings / TotalPings` exactly — including the entry the
first sample creates (0 after a first success, 100 after a first failure) —
and the scenario: a successful 20 ms probe of `"8.8.8.8"` followed by a failed
probe yields `TotalPings = 2`, `FailedPings = 1`, `PacketLoss = 50`.
Since every state reachable by a `StorePingData` sequence is the result of
some call, this covers every intermediate state of every sequence. -/
theorem storePingData_packetLoss :
    (∀ (s : Store) (now : Int) (host : String) (rtt : Int) (success : Bool)
       (method : String),
       ∃ p, mapLookup (s.storePingData now host rtt success method).PingResults
           host = some p ∧
         p.PacketLoss = 100 * (p.FailedPings : ℚ) / (p.TotalPings : ℚ)) ∧
    (∃ p, mapLookup (Store.new.storePingData 0 "8.8.8.8" 20000000 true
        "ICMP").PingResults "8.8.8.8" = some p ∧
      p.TotalPings = 1 ∧ p.FailedPings = 0 ∧ p.PacketLoss = 0) ∧
    (∃ p, mapLookup (Store.new.storePingData 0 "10.0.0.9" 0 false
        "FAILED").PingResults "10.0.0.9" = some p ∧
      p.TotalPings = 1 ∧ p.FailedPings = 1 ∧ p.PacketLoss = 100) ∧
    (∃ p, mapLookup ((Store.new.storePingData 0 "8.8.8.8" 20000000 true
        "ICMP").storePingData 5000000000 "8.8.8.8" 0 false
        "FAILED").PingResults "8.8.8.8" = some p ∧
      p.TotalPings = 2 ∧ p.FailedPings = 1 ∧ p.PacketLoss = 50) := by
  have hA : mapLookup (Store.new.storePingData 0 "8.8.8.8" 20000000 true
      "ICMP").PingResults "8.8.8.8" = some (initPingStats "8.8.8.8" 0 20000000 true) :=
    storePingData_lookup_none (by rfl) 0 20000000 true "ICMP"
  have hB : mapLookup (Store.new.storePingData 0 "10.0.0.9" 0 false
      "FAILED").PingResults "10.0.0.9" = some (initPingStats "10.0.0.9" 0 0 false) :=
    storePingData_lookup_none (by rfl) 0 0 false "FAILED"
  have hC : mapLookup ((Store.new.storePingData 0 "8.8.8.8" 20000000 true
      "ICMP").storePingData 5000000000 "8.8.8.8" 0 false "FAILED").PingResults
      "8.8.8.8" =
      some (updatePingStats (initPingStats "8.8.8.8" 0 20000000 true) 5000000000 0
        false) :=
    storePingData_lookup_some hA 5000000000 0 false "FAILED"
  refine ⟨?_,
    ⟨_, hA, by norm_num [initPingStats], by norm_num [initPingStats],
      by norm_num [initPingStats]⟩,
    ⟨_, hB, by norm_num [initPingStats], by norm_num [initPingStats],
      by norm_num [initPingStats]⟩,
    ⟨_, hC, by norm_num [updatePingStats, initPingStats],
      by norm_num [updatePingStats, initPingStats],
      by norm_num [updatePingStats, initPingStats]⟩⟩
  intro s now host rtt success method
  cases hl : mapLookup s.PingResults host with
  | some p0 =>
      refine ⟨_, storePingData_lookup_some hl now rtt success method, ?_⟩
      simp only [updatePingStats]
      ring
  | none =>
      refine ⟨_, storePingData_lookup_none hl now rtt success method, ?_⟩
      cases success <;> simp [initPingStats]

/-- C2: for sequences of `UpdateInterface` calls on one name and of
`StorePingData` calls on one host (starting from an unseen key), the stored
history after every intermediate state is exactly the last
`min (number of appended points, 100)` appended points in append order — so
it never exceeds 100 entries and truncation drops the oldest point first.
(`UpdateInterface` appends no point on the creating call, `StorePingData`
appends one on every call, as in the source.) -/
theorem history_bound_fifo :
    (∀ (s : Store) (name : String), mapLookup s.Interfaces name = none →
      ∀ (c : IfaceCall) (cs : List IfaceCall),
        ∃ st, mapLookup (runIface s name (c :: cs)).Interfaces name = some st ∧
          st.History = lastN MaxHistoryPoints (appendedPoints (freshIface name c) cs) ∧
          st.History.length =
            min (appendedPoints (freshIface name c) cs).length MaxHistoryPoints) ∧
    (∀ (s : Store) (host : String), mapLookup s.PingResults host = none →
      ∀ (c : PingCall) (cs : List PingCall),
        ∃ p, mapLookup (runPing s host (c :: cs)).PingResults host = some p ∧
          p.History = lastN MaxHistoryPoints ((c :: cs).map pingPointOf) ∧
          p.History.length =
            min ((c :: cs).map pingPointOf).length MaxHistoryPoints) := by
  constructor
  · intro s name h c cs
    rw [runIface_cons]
    have h1 := updateInterface_lookup_none h c
    refine ⟨_, runIface_lookup cs _ name _ h1, ?_, ?_⟩
    · have hfre : (freshIface name c).History = lastN MaxHistoryPoints [] := by
        rw [lastN_nil]; rfl
      have := foldIface_history cs (freshIface name c) [] hfre
      simpa using this
    · have hfre : (freshIface name c).History = lastN MaxHistoryPoints [] := by
        rw [lastN_nil]; rfl
      have := foldIface_history cs (freshIface name c) [] hfre
      rw [this]
      simp only [List.nil_append]
      rw [lastN_length, Nat.min_comm]
  · intro s host h c cs
    rw [runPing_cons]
    have h1 := storePingData_lookup_none h c.now c.rtt c.success c.method
    have hinit : (initPingStats host c.now c.rtt c.success).History =
        lastN MaxHistoryPoints [pingPointOf c] := by
      rw [lastN_of_le (by simp [MaxHistoryPoints])]; rfl
    have hfold := foldPing_history cs (initPingStats host c.now c.rtt c.success)
      [pingPointOf c] hinit
    refine ⟨_, runPing_lookup cs _ host _ h1, ?_, ?_⟩
    · rw [hfold, List.map_cons]
      rfl
    · rw [hfold, lastN_length, Nat.min_comm, List.singleton_append, List.map_cons]

/-- Witness for `history_bound_fifo` at a concrete two-call sequence on each
kind of entry, starting from the fresh store. -/
theorem history_bound_fifo_witness :
    (∃ st, mapLookup (runIface Store.new "eth0"
        [⟨0, 1000, 500, 3, 4⟩, ⟨1000000000, 3000, 1500, 5, 6⟩]).Interfaces "eth0" =
        some st ∧
      st.History = lastN MaxHistoryPoints
        (appendedPoints (freshIface "eth0" ⟨0, 1000, 500, 3, 4⟩)
          [⟨1000000000, 3000, 1500, 5, 6⟩]) ∧
      st.History.length = min (appendedPoints (freshIface "eth0" ⟨0, 1000, 500, 3, 4⟩)
          [⟨1000000000, 3000, 1500, 5, 6⟩]).length MaxHistoryPoints) ∧
    (∃ p, mapLookup (runPing Store.new "8.8.8.8"
        [⟨0, 20000000, true, "ICMP"⟩, ⟨5000000000, 0, false, "FAILED"⟩]).PingResults
        "8.8.8.8" = some p ∧
      p.History = lastN MaxHistoryPoints
        ([⟨0, 20000000, true, "ICMP"⟩, ⟨5000000000, 0, false, "FAILED"⟩].map
          pingPointOf) ∧
      p.History.length = min ([⟨0, 20000000, true, "ICMP"⟩,
          ⟨5000000000, 0, false, "FAILED"⟩].map pingPointOf).length MaxHistoryPoints) :=
  ⟨history_bound_fifo.1 Store.new "eth0" rfl ⟨0, 1000, 500, 3, 4⟩
      [⟨1000000000, 3000, 1500, 5, 6⟩],
    history_bound_fifo.2 Store.new "8.8.8.8" rfl ⟨0, 20000000, true, "ICMP"⟩
      [⟨5000000000, 0, false, "FAILED"⟩]⟩

/-! ## Average-latency evolution -/

theorem updatePingStats_avg_success {p : PingStats} {rs : List Int}
    (hmap : p.History.map (fun pt => pt.Latency) = rs)
    (hsucc : ∀ pt ∈ p.History, pt.Success = true)
    (hne : rs ≠ []) (now rtt : Int) :
    (updatePingStats p now rtt true).AvgLatency =
      Int.tdiv (rs.sum + rtt) ((rs.length : Int) + 1) := by
  have hhist : 0 < p.History.length := by
    rcases hrs : rs with _ | ⟨r, rest⟩
    · exact absurd hrs hne
    · rw [hrs] at hmap
      cases hh : p.History with
      | nil => rw [hh] at hmap; simp at hmap
      | cons a t => simp [hh]
  have hfilter : p.History.filter (fun pt => pt.Success) = p.History :=
    List.filter_eq_self.2 hsucc
  have hlen : ((rs.length : Nat) : Int) = ((p.History.length : Nat) : Int) := by
    rw [← hmap, List.length_map]
  simp only [updatePingStats, hfilter, hmap]
  rw [← hlen, Int.add_comm rtt rs.sum, Int.add_comm 1 ((rs.length : Nat) : Int)]
  rw [if_pos (And.intro trivial hhist)]

theorem foldPing_avg : ∀ (cs : List PingCall) (p : PingStats) (rs : List Int),
    (∀ c ∈ cs, c.success = true) →
    p.History.map (fun pt => pt.Latency) = rs →
    (∀ pt ∈ p.History, pt.Success = true) →
    p.History.length + cs.length ≤ MaxHistoryPoints →
    rs ≠ [] →
    p.AvgLatency = Int.tdiv rs.sum (rs.length : Int) →
    (cs.foldl pingStep p).AvgLatency =
      Int.tdiv (rs.sum + (cs.map (fun c => c.rtt)).sum)
        ((rs.length : Int) + (cs.length : Int))
  | [], p, rs, _, _, _, _, _, hAvg => by simpa using hAvg
  | c :: cs, p, rs, hall, hmap, hsucc, hbound, hne, hAvg => by
      have hcsucc : c.success = true := hall c (List.mem_cons_self _ _)
      have hlt : p.History.length < MaxHistoryPoints := by
        simp only [List.length_cons] at hbound
        omega
      have hhist : (pingStep p c).History = p.History ++ [⟨c.now, c.rtt, true⟩] := by
        rw [pingStep_history, pushBounded_of_lt hlt]
        simp [pingPointOf, hcsucc]
      have havg : (pingStep p c).AvgLatency =
          Int.tdiv (rs.sum + c.rtt) ((rs.length : Int) + 1) := by
        show (updatePingStats p c.now c.rtt c.success).AvgLatency = _
        rw [hcsucc]
        exact updatePingStats_avg_success hmap hsucc hne c.now c.rtt
      have hmap2 : (pingStep p c).History.map (fun pt => pt.Latency) =
          rs ++ [c.rtt] := by
        rw [hhist, List.map_append, hmap]
        rfl
      have hsucc2 : ∀ pt ∈ (pingStep p c).History, pt.Success = true := by
        rw [hhist]
        intro pt hpt
        rcases List.mem_append.1 hpt with hpt | hpt
        · exact hsucc pt hpt
        · simp at hpt
          rw [hpt]
      have hbound2 : (pingStep p c).History.length + cs.length ≤ MaxHistoryPoints := by
        rw [hhist]
        simp only [List.length_append, List.length_cons, List.length_nil]
        simp only [List.length_cons] at hbound
        omega
      have hAvg2 : (pingStep p c).AvgLatency =
          Int.tdiv (rs ++ [c.rtt]).sum (((rs ++ [c.rtt]).length : Int)) := by
        rw [havg]
        congr 1
        · simp
        · simp
      have := foldPing_avg cs (pingStep p c) (rs ++ [c.rtt])
        (fun x hx => hall x (List.mem_cons_of_mem _ hx)) hmap2 hsucc2 hbound2
        (by simp) hAvg2
      rw [List.foldl_cons, this]
      congr 1
      · simp only [List.sum_append, List.map_cons, List.sum_cons, List.sum_nil]
        ring
      · simp only [List.length_append, List.length_cons, List.length_nil]
        push_cast
        ring

/-- C4: starting from an unseen host, after any non-empty sequence of
only-successful `StorePingData` samples whose length does not exceed the
100-entry history bound, the stored `AvgLatency` equals the arithmetic mean
of the samples' latencies computed in `time.Duration` (integer nanosecond)
arithmetic: the truncating `int64` division of their sum by their count,
recomputed each update by rescanning the retained successful history plus
the newest sample. -/
theorem avg_latency_mean :
    ∀ (s : Store) (host : String), mapLookup s.PingResults host = none →
    ∀ (c : PingCall) (cs : List PingCall),
      (∀ x ∈ c :: cs, x.success = true) →
      (c :: cs).length ≤ MaxHistoryPoints →
      ∃ p, mapLookup (runPing s host (c :: cs)).PingResults host = some p ∧
        p.AvgLatency =
          Int.tdiv (((c :: cs).map (fun x => x.rtt)).sum) (((c :: cs).length : Int)) := by
  intro s host h c cs hall hlen
  have hcsucc : c.success = true := hall c (List.mem_cons_self _ _)
  rw [runPing_cons]
  have h1 := storePingData_lookup_none h c.now c.rtt c.success c.method
  refine ⟨_, runPing_lookup cs _ host _ h1, ?_⟩
  have hinit : (initPingStats host c.now c.rtt c.success).History =
      [⟨c.now, c.rtt, true⟩] := by
    simp [initPingStats, hcsucc]
  have havg0 : (initPingStats host c.now c.rtt c.success).AvgLatency = c.rtt := by
    simp [initPingStats, hcsucc]
  have := foldPing_avg cs (initPingStats host c.now c.rtt c.success) [c.rtt]
    (fun x hx => hall x (List.mem_cons_of_mem _ hx))
    (by rw [hinit]; rfl)
    (by rw [hinit]; intro pt hpt; simp at hpt; rw [hpt])
    (by rw [hinit]; simp only [List.length_cons, List.length_nil,
          List.length_cons] at hlen ⊢; omega)
    (by simp)
    (by rw [havg0]; simp)
  rw [this]
  congr 1
  · simp
  · simp only [List.length_cons, List.length_nil]
    push_cast
    ring

/-- Witness for `avg_latency_mean`: two successful samples of 10 ns and 21 ns
yield `AvgLatency = 31.tdiv 2 = 15`. -/
theorem avg_latency_mean_witness :
    ∃ p, mapLookup (runPing Store.new "1.1.1.1"
        [⟨0, 10, true, "ICMP"⟩, ⟨5000000000, 21, true, "ICMP"⟩]).PingResults
        "1.1.1.1" = some p ∧
      p.AvgLatency =
        Int.tdiv (([⟨0, 10, true, "ICMP"⟩, ⟨5000000000, 21, true,
            "ICMP"⟩] : List PingCall).map (fun x => x.rtt)).sum 2 :=
  avg_latency_mean Store.new "1.1.1.1" (by rfl) ⟨0, 10, true, "ICMP"⟩
    [⟨5000000000, 21, true, "ICMP"⟩] (by decide) (by decide)

/-! ## Device field evolution -/

theorem firstNonEmpty_cons_ne {m : String} (hm : m ≠ "") (l : List String) :
    firstNonEmpty (m :: l) = m := by
  simp [firstNonEmpty, List.find?_cons_of_pos, hm]

theorem firstNonEmpty_cons_empty (l : List String) :
    firstNonEmpty ("" :: l) = firstNonEmpty l := by
  simp [firstNonEmpty]

theorem foldDev_mac : ∀ (cs : List DevCall) (d : Device),
    (cs.foldl devStep d).MAC =
      if d.MAC = "" then firstNonEmpty (cs.map (fun c => c.mac)) else d.MAC
  | [], d => by
      by_cases h : d.MAC = "" <;> simp [h, firstNonEmpty]
  | c :: cs, d => by
      rw [List.foldl_cons, foldDev_mac cs (devStep d c), List.map_cons]
      by_cases hd : d.MAC = ""
      · by_cases hc : c.mac = ""
        · have : (devStep d c).MAC = d.MAC := by
            simp [devStep, hc]
          rw [this, if_pos hd, if_pos hd, hc, firstNonEmpty_cons_empty]
        · have : (devStep d c).MAC = c.mac := by
            simp [devStep, hc, hd]
          rw [this, if_neg hc, if_pos hd, firstNonEmpty_cons_ne hc]
      · have : (devStep d c).MAC = d.MAC := by
          simp [devStep, hd]
        rw [this, if_neg hd, if_neg hd]

theorem foldDev_hostname : ∀ (cs : List DevCall) (d : Device),
    (cs.foldl devStep d).Hostname =
      if d.Hostname = "" then firstNonEmpty (cs.map (fun c => c.hostname))
      else d.Hostname
  | [], d => by
      by_cases h : d.Hostname = "" <;> simp [h, firstNonEmpty]
  | c :: cs, d => by
      rw [List.foldl_cons, foldDev_hostname cs (devStep d c), List.map_cons]
      by_cases hd : d.Hostname = ""
      · by_cases hc : c.hostname = ""
        · have : (devStep d c).Hostname = d.Hostname := by
            simp [devStep, hc]
          rw [this, if_pos hd, if_pos hd, hc, firstNonEmpty_cons_empty]
        · have : (devStep d c).Hostname = c.hostname := by
            simp [devStep, hc, hd]
          rw [this, if_neg hc, if_pos hd, firstNonEmpty_cons_ne hc]
      · have : (devStep d c).Hostname = d.Hostname := by
          simp [devStep, hd]
        rw [this, if_neg hd, if_neg hd]

/-- C6: `UpdateDevice` MAC/Hostname fields are first-write-wins sticky.
Per step: the updated field equals the incoming value exactly when the stored
field is empty and the incoming value is non-empty, and the stored value
otherwise (so a non-empty stored field is never changed, and an empty one is
filled only by a non-empty value).  Globally: starting from an unseen IP,
after any sequence of `UpdateDevice` calls the stored MAC (resp. Hostname)
is the first non-empty MAC (resp. hostname) among the calls, or empty if
none was non-empty. -/
theorem device_sticky_fields :
    (∀ (d : Device) (c : DevCall),
       (devStep d c).MAC = (if d.MAC = "" ∧ c.mac ≠ "" then c.mac else d.MAC) ∧
       (devStep d c).Hostname =
         (if d.Hostname = "" ∧ c.hostname ≠ "" then c.hostname else d.Hostname)) ∧
    (∀ (s : Store) (now : Int) (ip mac hostname : String) (d : Device),
       mapLookup s.Devices ip = some d →
       mapLookup (s.updateDevice now ip mac hostname).Devices ip =
         some (devStep d ⟨now, mac, hostname⟩)) ∧
    (∀ (s : Store) (ip : String), mapLookup s.Devices ip = none →
      ∀ (c : DevCall) (cs : List DevCall),
        ∃ d, mapLookup (runDev s ip (c :: cs)).Devices ip = some d ∧
          d.MAC = firstNonEmpty ((c :: cs).map (fun x => x.mac)) ∧
          d.Hostname = firstNonEmpty ((c :: cs).map (fun x => x.hostname))) := by
  refine ⟨?_, ?_, ?_⟩
  · intro d c
    constructor
    · simp only [devStep]
      by_cases h1 : c.mac = "" <;> by_cases h2 : d.MAC = "" <;> simp [h1, h2]
    · simp only [devStep]
      by_cases h1 : c.hostname = "" <;> by_cases h2 : d.Hostname = "" <;>
        simp [h1, h2]
  · intro s now ip mac hostname d h
    exact updateDevice_lookup_some h now mac hostname
  · intro s ip h c cs
    rw [runDev_cons]
    have h1 := updateDevice_lookup_none h c.now c.mac c.hostname
    refine ⟨_, runDev_lookup cs _ ip _ h1, ?_, ?_⟩
    · rw [foldDev_mac, List.map_cons]
      by_cases hc : c.mac = ""
      · simp only [hc]
        rw [if_pos trivial, firstNonEmpty_cons_empty]
      · rw [if_neg hc, firstNonEmpty_cons_ne hc]
    · rw [foldDev_hostname, List.map_cons]
      by_cases hc : c.hostname = ""
      · simp only [hc]
        rw [if_pos trivial, firstNonEmpty_cons_empty]
      · rw [if_neg hc, firstNonEmpty_cons_ne hc]

/-- Witness for `device_sticky_fields`: a later call with a different
non-empty MAC ("bb") and an empty hostname does not overwrite the earlier
values. -/
theorem device_sticky_fields_witness :
    ((devStep ⟨"10.0.0.5", "aa", "", 0, true, ""⟩ ⟨1, "bb", "host1"⟩).MAC =
        (if ("aa" : String) = "" ∧ ("bb" : String) ≠ "" then "bb" else "aa") ∧
      (devStep ⟨"10.0.0.5", "aa", "", 0, true, ""⟩ ⟨1, "bb", "host1"⟩).Hostname =
        (if ("" : String) = "" ∧ ("host1" : String) ≠ "" then "host1" else "")) ∧
    (∃ d, mapLookup (runDev Store.new "10.0.0.5"
        [⟨0, "", "host1"⟩, ⟨1, "aa", "host2"⟩, ⟨2, "bb", ""⟩]).Devices "10.0.0.5" =
        some d ∧
      d.MAC = firstNonEmpty (([⟨0, "", "host1"⟩, ⟨1, "aa", "host2"⟩,
          ⟨2, "bb", ""⟩] : List DevCall).map (fun x => x.mac)) ∧
      d.Hostname = firstNonEmpty (([⟨0, "", "host1"⟩, ⟨1, "aa", "host2"⟩,
          ⟨2, "bb", ""⟩] : List DevCall).map (fun x => x.hostname))) :=
  ⟨device_sticky_fields.1 ⟨"10.0.0.5", "aa", "", 0, true, ""⟩ ⟨1, "bb", "host1"⟩,
    device_sticky_fields.2.2 Store.new "10.0.0.5" (by rfl) ⟨0, "", "host1"⟩
      [⟨1, "aa", "host2"⟩, ⟨2, "bb", ""⟩]⟩

/-- C10: `UpdateDevice` never modifies the Store's global `LastUpdated`
timestamp, nor any Store field other than the `Devices` entry of the given
IP; `UpdateInterface` and `StorePingData` instead set `LastUpdated` to the
time of the call, on every call. -/
theorem updateDevice_frame :
    (∀ (s : Store) (now : Int) (ip mac hostname : String),
       (s.updateDevice now ip mac hostname).LastUpdated = s.LastUpdated ∧
       (s.updateDevice now ip mac hostname).Interfaces = s.Interfaces ∧
       (s.updateDevice now ip mac hostname).PingResults = s.PingResults ∧
       ∀ k, k ≠ ip →
         mapLookup (s.updateDevice now ip mac hostname).Devices k =
           mapLookup s.Devices k) ∧
    (∀ (s : Store) (now : Int) (name : String)
       (bytesRx bytesTx packetsRx packetsTx : Nat),
       (s.updateInterface now name bytesRx bytesTx packetsRx
         packetsTx).LastUpdated = now) ∧
    (∀ (s : Store) (now : Int) (host : String) (rtt : Int) (success : Bool)
       (method : String),
       (s.storePingData now host rtt success method).LastUpdated = now) := by
  refine ⟨?_, fun _ _ _ _ _ _ _ => rfl, fun _ _ _ _ _ _ => rfl⟩
  intro s now ip mac hostname
  refine ⟨rfl, rfl, rfl, ?_⟩
  intro k hk
  exact mapLookup_insert_ne s.Devices hk _

/-- Witness for `updateDevice_frame` at a concrete store: updating device
"10.0.0.5" leaves `LastUpdated` and the entry of another key untouched,
while the other two operations refresh `LastUpdated`. -/
theorem updateDevice_frame_witness :
    ((Store.new.updateDevice 7 "10.0.0.5" "aa" "h1").LastUpdated =
        Store.new.LastUpdated ∧
      mapLookup ((Store.new.updateDevice 7 "10.0.0.5" "aa" "h1").updateDevice 9
          "10.0.0.6" "bb" "h2").Devices "10.0.0.5" =
        mapLookup (Store.new.updateDevice 7 "10.0.0.5" "aa" "h1").Devices
          "10.0.0.5") ∧
    (Store.new.updateInterface 11 "eth0" 1 2 3 4).LastUpdated = 11 ∧
    (Store.new.storePingData 13 "8.8.8.8" 5 true "ICMP").LastUpdated = 13 := by
  refine ⟨⟨(updateDevice_frame.1 Store.new 7 "10.0.0.5" "aa" "h1").1, ?_⟩,
    updateDevice_frame.2.1 Store.new 11 "eth0" 1 2 3 4,
    updateDevice_frame.2.2 Store.new 13 "8.8.8.8" 5 true "ICMP"⟩
  exact (updateDevice_frame.1 (Store.new.updateDevice 7 "10.0.0.5" "aa" "h1") 9
    "10.0.0.6" "bb" "h2").2.2.2 "10.0.0.5" (by decide)

/-! ## Speed computation (`UpdateInterface`) -/

theorem u64sub_of_le {a b : Nat} (hba : b ≤ a) (ha : a < u64) :
    u64sub a b = a - b := by
  have hb : b < u64 := lt_of_le_of_lt hba ha
  unfold u64sub
  rw [Nat.mod_eq_of_lt ha, Nat.mod_eq_of_lt hb]
  have h3 : a + (u64 - b) = (a - b) + u64 := by omega
  rw [h3, Nat.add_mod_right]
  exact Nat.mod_eq_of_lt (by omega)

theorem u64sub_of_lt {a b : Nat} (hab : a < b) (hb : b < u64) :
    u64sub a b = u64 + a - b := by
  have ha : a < u64 := lt_trans hab hb
  unfold u64sub
  rw [Nat.mod_eq_of_lt ha, Nat.mod_eq_of_lt hb]
  have h3 : a + (u64 - b) = u64 + a - b := by omega
  rw [h3]
  exact Nat.mod_eq_of_lt (by omega)

theorem elapsedSeconds_pos {now last : Int} (h : last < now) :
    0 < elapsedSeconds now last := by
  unfold elapsedSeconds
  have h1 : (0 : ℚ) < ((now - last : Int) : ℚ) := by
    exact_mod_cast Int.sub_pos.2 h
  have h2 : (0 : ℚ) < 1000000000 := by norm_num
  exact div_pos h1 h2

/-- C7 (counterexample to the claim as stated): an interface stored with
cumulative `BytesRx = 1000` updated one second later with the smaller counter
`bytesRx = 500` (a counter reset).  The claim says the resulting speed is
negative; the source computes `float64(bytesRx-iface.BytesRx)` on `uint64`,
which wraps, so the stored speed is the huge positive `2^64 − 500`. -/
theorem updateInterface_reset_not_negative :
    ∃ st, mapLookup ((⟨[("eth0", ⟨"eth0", 1000, 500, 0, 0, 0, 0, [], 0⟩)],
        [], [], 0⟩ : Store).updateInterface 1000000000 "eth0" 500 100 0
        0).Interfaces "eth0" = some st ∧
      st.SpeedRx = (2 : ℚ) ^ 64 - 500 ∧ ¬ st.SpeedRx < 0 := by
  refine ⟨_, updateInterface_lookup_some (by rfl) 1000000000 500 100 0 0, ?_, ?_⟩
  · show ifaceSpeedRx ⟨"eth0", 1000, 500, 0, 0, 0, 0, [], 0⟩ 1000000000 500 = _
    norm_num [ifaceSpeedRx, elapsedSeconds, u64sub, u64]
  · show ¬ ifaceSpeedRx ⟨"eth0", 1000, 500, 0, 0, 0, 0, [], 0⟩ 1000000000 500 < 0
    norm_num [ifaceSpeedRx, elapsedSeconds, u64sub, u64]

/-- C7 (amended): on an existing interface with elapsed time > 0 the stored
speed is `((newBytes − oldBytes) mod 2^64) / elapsedSeconds` for each
direction — equal to `(newBytes − oldBytes)/elapsedSeconds` when the counter
did not shrink, but, because the `uint64` subtraction wraps, equal to the
large positive `(2^64 + newBytes − oldBytes)/elapsedSeconds` (not a negative
value) when the counter reset.  The scenario rx 1000→3000, tx 500→1500 one
second apart yields `SpeedRx = 2000`, `SpeedTx = 1000`. -/
theorem updateInterface_speed :
    (∀ (s : Store) (name : String) (iface : InterfaceStats) (now : Int)
       (bytesRx bytesTx packetsRx packetsTx : Nat),
      mapLookup s.Interfaces name = some iface →
      iface.LastCheck < now →
      ∃ st, mapLookup (s.updateInterface now name bytesRx bytesTx packetsRx
          packetsTx).Interfaces name = some st ∧
        st.SpeedRx = (u64sub bytesRx iface.BytesRx : ℚ) /
          elapsedSeconds now iface.LastCheck ∧
        st.SpeedTx = (u64sub bytesTx iface.BytesTx : ℚ) /
          elapsedSeconds now iface.LastCheck ∧
        (iface.BytesRx ≤ bytesRx → bytesRx < u64 →
          st.SpeedRx = ((bytesRx : ℚ) - (iface.BytesRx : ℚ)) /
            elapsedSeconds now iface.LastCheck) ∧
        (bytesRx < iface.BytesRx → iface.BytesRx < u64 →
          st.SpeedRx = ((u64 : ℚ) + (bytesRx : ℚ) - (iface.BytesRx : ℚ)) /
            elapsedSeconds now iface.LastCheck ∧ 0 < st.SpeedRx)) ∧
    (∃ st, mapLookup (runIface Store.new "eth0"
        [⟨0, 1000, 500, 0, 0⟩, ⟨1000000000, 3000, 1500, 0, 0⟩]).Interfaces
        "eth0" = some st ∧ st.SpeedRx = 2000 ∧ st.SpeedTx = 1000) := by
  constructor
  · intro s name iface now bytesRx bytesTx packetsRx packetsTx h hlt
    have hel := elapsedSeconds_pos hlt
    have hrx : (updateIfaceStats iface now bytesRx bytesTx packetsRx
        packetsTx).SpeedRx = (u64sub bytesRx iface.BytesRx : ℚ) /
        elapsedSeconds now iface.LastCheck := by
      show ifaceSpeedRx iface now bytesRx = _
      rw [ifaceSpeedRx, if_pos hel]
    have htx : (updateIfaceStats iface now bytesRx bytesTx packetsRx
        packetsTx).SpeedTx = (u64sub bytesTx iface.BytesTx : ℚ) /
        elapsedSeconds now iface.LastCheck := by
      show ifaceSpeedTx iface now bytesTx = _
      rw [ifaceSpeedTx, if_pos hel]
    refine ⟨_, updateInterface_lookup_some h now bytesRx bytesTx packetsRx
      packetsTx, hrx, htx, ?_, ?_⟩
    · intro hle hb
      rw [hrx, u64sub_of_le hle hb, Nat.cast_sub hle]
    · intro hab hb
      have hcast : ((u64 + bytesRx - iface.BytesRx : Nat) : ℚ) =
          (u64 : ℚ) + (bytesRx : ℚ) - (iface.BytesRx : ℚ) := by
        have : iface.BytesRx ≤ u64 + bytesRx := by omega
        push_cast [Nat.cast_sub this]
        ring
      have heq : (updateIfaceStats iface now bytesRx bytesTx packetsRx
          packetsTx).SpeedRx = ((u64 : ℚ) + (bytesRx : ℚ) -
          (iface.BytesRx : ℚ)) / elapsedSeconds now iface.LastCheck := by
        rw [hrx, u64sub_of_lt hab hb, hcast]
      refine ⟨heq, ?_⟩
      rw [heq]
      apply div_pos ?_ hel
      have h1 : (iface.BytesRx : ℚ) < (u64 : ℚ) := by exact_mod_cast hb
      have h2 : (0 : ℚ) ≤ (bytesRx : ℚ) := Nat.cast_nonneg _
      linarith
  · have h1 : mapLookup (Store.new.updateInterface 0 "eth0" 1000 500 0
        0).Interfaces "eth0" =
        some (freshIface "eth0" ⟨0, 1000, 500, 0, 0⟩) :=
      updateInterface_lookup_none (by rfl) ⟨0, 1000, 500, 0, 0⟩
    refine ⟨_, updateInterface_lookup_some h1 1000000000 3000 1500 0 0, ?_, ?_⟩
    · show ifaceSpeedRx (freshIface "eth0" ⟨0, 1000, 500, 0, 0⟩) 1000000000
        3000 = 2000
      norm_num [ifaceSpeedRx, elapsedSeconds, u64sub, u64, freshIface]
    · show ifaceSpeedTx (freshIface "eth0" ⟨0, 1000, 500, 0, 0⟩) 1000000000
        1500 = 1000
      norm_num [ifaceSpeedTx, elapsedSeconds, u64sub, u64, freshIface]

/-- Witness for `updateInterface_speed` on a concrete store: a normal delta
(2000→2500 in half a second) gives speed 1000, and a reset (1000→500 in one
second) gives the wrapped positive value. -/
theorem updateInterface_speed_witness :
    (∃ st, mapLookup ((⟨[("eth0", ⟨"eth0", 2000, 0, 0, 0, 0, 0, [], 0⟩)],
        [], [], 0⟩ : Store).updateInterface 500000000 "eth0" 2500 0 0
        0).Interfaces "eth0" = some st ∧
      st.SpeedRx = (u64sub 2500 2000 : ℚ) / elapsedSeconds 500000000 0 ∧
      st.SpeedTx = (u64sub 0 0 : ℚ) / elapsedSeconds 500000000 0 ∧
      ((2000 : Nat) ≤ 2500 → (2500 : Nat) < u64 →
        st.SpeedRx = ((2500 : ℚ) - (2000 : ℚ)) / elapsedSeconds 500000000 0) ∧
      ((2500 : Nat) < 2000 → (2000 : Nat) < u64 →
        st.SpeedRx = ((u64 : ℚ) + (2500 : ℚ) - (2000 : ℚ)) /
          elapsedSeconds 500000000 0 ∧ 0 < st.SpeedRx)) ∧
    (∃ st, mapLookup (runIface Store.new "eth0"
        [⟨0, 1000, 500, 0, 0⟩, ⟨1000000000, 3000, 1500, 0, 0⟩]).Interfaces
        "eth0" = some st ∧ st.SpeedRx = 2000 ∧ st.SpeedTx = 1000) := by
  constructor
  · have := updateInterface_speed.1
      (⟨[("eth0", ⟨"eth0", 2000, 0, 0, 0, 0, 0, [], 0⟩)], [], [], 0⟩ : Store)
      "eth0" ⟨"eth0", 2000, 0, 0, 0, 0, 0, [], 0⟩ 500000000 2500 0 0 0
      (by rfl) (by norm_num)
    exact this
  · exact updateInterface_speed.2

/-! ## Ping fallback -/

theorem tcpFallback_spec : ∀ (ports : List String) (tcp : String → Option Int)
    (p : String) (rtt : Int), tcpFallback tcp ports = some (p, rtt) →
    tcp p = some rtt ∧
    ∃ pre post, ports = pre ++ p :: post ∧ ∀ q ∈ pre, tcp q = none
  | [], _, _, _, h => by simp [tcpFallback] at h
  | q :: ps, tcp, p, rtt, h => by
      cases hq : tcp q with
      | some r =>
          simp only [tcpFallback, hq] at h
          obtain ⟨hp, hr⟩ := Prod.mk.injEq .. ▸ (Option.some.injEq _ _ ▸ h)
          refine ⟨by rw [← hp, hq, hr], [], ps, by simp [hp], by simp⟩
      | none =>
          simp only [tcpFallback, hq] at h
          obtain ⟨h1, pre, post, h2, h3⟩ := tcpFallback_spec ps tcp p rtt h
          refine ⟨h1, q :: pre, post, by rw [h2]; rfl, ?_⟩
          intro x hx
          rcases List.mem_cons.1 hx with hx | hx
          · rw [hx]; exact hq
          · exact h3 x hx

theorem tcpFallback_isSome : ∀ (ports : List String) (tcp : String → Option Int),
    (∃ q ∈ ports, tcp q ≠ none) → (tcpFallback tcp ports).isSome = true
  | [], _, h => by simp at h
  | q :: ps, tcp, h => by
      cases hq : tcp q with
      | some r => simp [tcpFallback, hq]
      | none =>
          simp only [tcpFallback, hq]
          obtain ⟨x, hx, hxne⟩ := h
          rcases List.mem_cons.1 hx with hx | hx
          · exact absurd (hx ▸ hq) hxne
          · exact tcpFallback_isSome ps tcp ⟨x, hx, hxne⟩

theorem tcp_label_ne_icmp (p : String) : ("TCP:" ++ p) ≠ "ICMP" := by
  intro h
  rw [String.ext_iff, String.data_append] at h
  simp at h

/-- C8: when ICMP fails, `pingHost` walks the fixed port order 80, 443, 53,
22, stops at the first TCP success, and returns a success whose method is
`"TCP:<port>"` — never `"ICMP"`; so whenever some TCP port succeeds after an
ICMP failure, the sample handed to `StorePingData` is a success labeled with
the TCP method. -/
theorem pingHost_tcp_fallback :
    (∀ (host : String) (tcp : String → Option Int) (p : String) (rtt : Int),
      tcpFallback tcp tcpPorts = some (p, rtt) →
      pingHost host none tcp = ⟨host, rtt, true, "TCP:" ++ p⟩ ∧
      ("TCP:" ++ p) ≠ "ICMP" ∧ tcp p = some rtt ∧
      ∃ pre post, tcpPorts = pre ++ p :: post ∧ ∀ q ∈ pre, tcp q = none) ∧
    (∀ (host : String) (tcp : String → Option Int),
      (∃ q ∈ tcpPorts, tcp q ≠ none) →
      (pingHost host none tcp).Success = true ∧
      (pingHost host none tcp).Method ≠ "ICMP") := by
  constructor
  · intro host tcp p rtt h
    obtain ⟨h1, pre, post, h2, h3⟩ := tcpFallback_spec tcpPorts tcp p rtt h
    exact ⟨by simp only [pingHost, h], tcp_label_ne_icmp p, h1, pre, post, h2, h3⟩
  · intro host tcp h
    have hs := tcpFallback_isSome tcpPorts tcp h
    obtain ⟨⟨p, rtt⟩, hsome⟩ := Option.isSome_iff_exists.1 hs
    simp only [pingHost, hsome]
    exact ⟨trivial, tcp_label_ne_icmp p⟩

/-- Witness for `pingHost_tcp_fallback`: a network where ICMP fails, port 80
refuses and port 443 answers in 15 ms; the result is a success labeled
`"TCP:443"`. -/
theorem pingHost_tcp_fallback_witness :
    (pingHost "8.8.8.8" none
        (fun q => if q = "443" then some 15000000 else none) =
      ⟨"8.8.8.8", 15000000, true, "TCP:" ++ "443"⟩) ∧
    ("TCP:" ++ "443") ≠ "ICMP" ∧
    (pingHost "8.8.8.8" none
        (fun q => if q = "443" then some 15000000 else none)).Success = true := by
  have h := pingHost_tcp_fallback.1 "8.8.8.8"
    (fun q => if q = "443" then some 15000000 else none) "443" 15000000 (by decide)
  have h2 := pingHost_tcp_fallback.2 "8.8.8.8"
    (fun q => if q = "443" then some 15000000 else none)
    ⟨"443", by decide, by decide⟩
  exact ⟨h.1, h.2.1, h2.1⟩

/-! ## Subnet sweep -/

set_option maxRecDepth 10000 in
/-- C9 (counterexample to the claim as stated): for the /25 subnet
192.168.1.0/25 the broadcast address 192.168.1.127 survives the
string-suffix filter and IS probed; and in the /23 subnet 192.168.0.0/23 the
genuine host address 192.168.0.255 (neither network nor broadcast) is
skipped and NOT probed.  The claim holds only for /24 prefixes. -/
theorem pingSweep_counterexample :
    (broadcastAddr 3232235776 25 ∈ pingSweepTargets 3232235776 25) ∧
    (3232235775 ∈ subnetAddrs 3232235520 23 ∧
      3232235775 ≠ networkAddr 3232235520 23 ∧
      3232235775 ≠ broadcastAddr 3232235520 23 ∧
      3232235775 ∉ pingSweepTargets 3232235520 23) := by
  constructor
  · decide
  · refine ⟨?_, by decide, by decide, ?_⟩
    · decide
    · decide

/-- C9 (amended): `pingSweep` probes exactly the addresses of the subnet
whose last octet is neither 0 nor 255 — an address is probed iff it lies
between the network and broadcast addresses and its value mod 256 is
neither 0 nor 255.  For a /24 prefix this coincides with "every host
address except the network and broadcast addresses"; for other prefix
lengths it does not (see the counterexample). -/
theorem pingSweep_targets_spec :
    (∀ (base m a : Nat), a ∈ pingSweepTargets base m ↔
      (networkAddr base m ≤ a ∧ a ≤ broadcastAddr base m ∧
        a % 256 ≠ 0 ∧ a % 256 ≠ 255)) ∧
    (∀ base : Nat, pingSweepTargets base 24 =
      (subnetAddrs base 24).filter
        (fun a => ¬ (a = networkAddr base 24 ∨ a = broadcastAddr base 24))) := by
  constructor
  · intro base m a
    have hpos : 0 < 2 ^ hostBits m := pow_pos (by norm_num) _
    simp only [pingSweepTargets, subnetAddrs, List.mem_filter, List.mem_map,
      List.mem_range, decide_not, Bool.not_eq_true', decide_eq_false_iff_not]
    constructor
    · rintro ⟨⟨i, hi, rfl⟩, hno⟩
      push_neg at hno
      refine ⟨by omega, by unfold broadcastAddr; omega, hno.1, hno.2⟩
    · rintro ⟨h1, h2, h3, h4⟩
      have hbc : a ≤ networkAddr base m + (2 ^ hostBits m - 1) := h2
      refine ⟨⟨a - networkAddr base m, by omega, by omega⟩, ?_⟩
      push_neg
      exact ⟨h3, h4⟩
  · intro base
    apply List.filter_congr
    intro a ha
    obtain ⟨i, hi, rfl⟩ : ∃ i, i < 256 ∧ networkAddr base 24 + i = a := by
      simp only [subnetAddrs, List.mem_map, List.mem_range] at ha
      obtain ⟨i, hi, hia⟩ := ha
      have h256 : (2 : Nat) ^ hostBits 24 = 256 := by norm_num [hostBits]
      rw [h256] at hi
      exact ⟨i, hi, hia⟩
    have hn : networkAddr base 24 % 256 = 0 := by
      have he : networkAddr base 24 = base / 256 * 256 := by
        unfold networkAddr hostBits
        norm_num
      rw [he, Nat.mul_mod_left]
    have hmod : (networkAddr base 24 + i) % 256 = i := by
      rw [Nat.add_mod, hn]
      simp [Nat.mod_eq_of_lt hi]
    have hb : broadcastAddr base 24 = networkAddr base 24 + 255 := by
      unfold broadcastAddr hostBits
      norm_num
    simp only [decide_eq_decide]
    rw [hmod, hb]
    omega

/-! ## Snapshot copying discipline -/

theorem getDevicesGo_heap_prefix (now : Int) : ∀ (es resE : GoMap Nat)
    (heap : List Device) {a : Nat} {y : Device}, heapGet heap a = some y →
    heapGet (getDevicesGo now es resE heap).heap a = some y
  | [], _, _, _, _, h => h
  | p :: rest, resE, heap, a, y, h => by
      cases hd : heapGet heap p.2 with
      | some d =>
          simp only [getDevicesGo, hd]
          exact getDevicesGo_heap_prefix now rest _ _
            (heapGet_append_of_some h _)
      | none =>
          simp only [getDevicesGo, hd]
          exact getDevicesGo_heap_prefix now rest _ _ h

theorem getDevicesGo_entries_ge (now : Int) : ∀ (es resE : GoMap Nat)
    (heap : List Device) (H0 : Nat), H0 ≤ heap.length →
    (∀ p ∈ resE, H0 ≤ p.2) →
    ∀ p ∈ (getDevicesGo now es resE heap).entries, H0 ≤ p.2
  | [], resE, heap, H0, _, hres, p, hp => hres p hp
  | q :: rest, resE, heap, H0, hlen, hres, p, hp => by
      cases hd : heapGet heap q.2 with
      | some d =>
          simp only [getDevicesGo, hd] at hp
          refine getDevicesGo_entries_ge now rest _ _ H0 ?_ ?_ p hp
          · simp only [List.length_append, List.length_cons, List.length_nil]
            omega
          · intro r hr
            rcases mem_mapInsert hr with hr | hr
            · rw [hr]
              exact hlen
            · exact hres r hr
      | none =>
          simp only [getDevicesGo, hd] at hp
          exact getDevicesGo_entries_ge now rest _ _ H0 hlen hres p hp

theorem heapGet_of_lt {α : Type} {l : List α} {a : Nat} (h : a < l.length) :
    ∃ x, heapGet l a = some x := by
  induction l generalizing a with
  | nil => simp at h
  | cons x t ih =>
      cases a with
      | zero => exact ⟨x, rfl⟩
      | succ n => exact ih (by simpa using h)

theorem getDevicesGo_persist (now : Int) : ∀ (es resE : GoMap Nat)
    (heap : List Device) (k : String) (a : Nat) (y : Device),
    (k, a) ∈ resE → heapGet heap a = some y → (∀ q ∈ es, q.1 ≠ k) →
    (k, a) ∈ (getDevicesGo now es resE heap).entries ∧
    heapGet (getDevicesGo now es resE heap).heap a = some y
  | [], _, _, _, _, _, hm, hg, _ => ⟨hm, hg⟩
  | q :: rest, resE, heap, k, a, y, hm, hg, hne => by
      have hqk : q.1 ≠ k := hne q (List.mem_cons_self _ _)
      have hrest : ∀ r ∈ rest, r.1 ≠ k :=
        fun r hr => hne r (List.mem_cons_of_mem _ hr)
      cases hd : heapGet heap q.2 with
      | some d =>
          simp only [getDevicesGo, hd]
          exact getDevicesGo_persist now rest _ _ k a y
            (mem_mapInsert_of_ne hm (Ne.symm hqk) _)
            (heapGet_append_of_some hg _) hrest
      | none =>
          simp only [getDevicesGo, hd]
          exact getDevicesGo_persist now rest _ _ k a y hm hg hrest

theorem getDevicesGo_mem (now : Int) : ∀ (es resE : GoMap Nat)
    (heap : List Device) (k : String) (a : Nat) (d : Device),
    (k, a) ∈ es → (es.map Prod.fst).Nodup → heapGet heap a = some d →
    ∃ b, (k, b) ∈ (getDevicesGo now es resE heap).entries ∧
      heapGet (getDevicesGo now es resE heap).heap b =
        some (snapshotDevice now d)
  | [], _, _, _, _, _, hm, _, _ => by simp at hm
  | q :: rest, resE, heap, k, a, d, hm, hnd, hg => by
      have hnd2 := hnd
      rw [List.map_cons, List.nodup_cons] at hnd2
      rcases List.mem_cons.1 hm with hm | hm
      · have hqa : q = (k, a) := hm.symm
        subst hqa
        simp only [getDevicesGo, hg]
        have hnotin : ∀ r ∈ rest, r.1 ≠ k := by
          intro r hr hcon
          have hmem : r.1 ∈ List.map Prod.fst rest :=
            List.mem_map_of_mem Prod.fst hr
          rw [hcon] at hmem
          exact hnd2.1 hmem
        have := getDevicesGo_persist now rest
          (mapInsert resE k heap.length) (heap ++ [snapshotDevice now d]) k
          heap.length (snapshotDevice now d) (mem_mapInsert_self _ _ _)
          (heapGet_append_self heap _ []) hnotin
        exact ⟨heap.length, this.1, this.2⟩
      · cases hd : heapGet heap q.2 with
        | some d0 =>
            simp only [getDevicesGo, hd]
            exact getDevicesGo_mem now rest _ _ k a d hm hnd2.2
              (heapGet_append_of_some hg _)
        | none =>
            simp only [getDevicesGo, hd]
            exact getDevicesGo_mem now rest _ _ k a d hm hnd2.2 hg

/-- C3 (counterexample to the claim as stated): `GetInterfaces` copies only
the map, not the value structs — the returned map holds the same pointers as
the store.  For a store with one interface (address 0, `BytesRx = 5`), the
snapshot contains the same pointer `("eth0", 0)`; writing `BytesRx = 99`
through it changes what the store's own map now reads from 5 to 99: the
stored state is mutated through the returned snapshot. -/
theorem getInterfaces_shares_pointers :
    ("eth0", 0) ∈ getInterfacesP
      (⟨[("eth0", 0)], [⟨"eth0", 5, 0, 0, 0, 0, 0, [], 0⟩]⟩ :
        PtrStore InterfaceStats) ∧
    (readKey (⟨[("eth0", 0)], [⟨"eth0", 5, 0, 0, 0, 0, 0, [], 0⟩]⟩ :
        PtrStore InterfaceStats) "eth0").map (fun st => st.BytesRx) = some 5 ∧
    (readKey (⟨[("eth0", 0)],
        heapSet [⟨"eth0", 5, 0, 0, 0, 0, 0, [], 0⟩] 0
          ⟨"eth0", 99, 0, 0, 0, 0, 0, [], 0⟩⟩ :
        PtrStore InterfaceStats) "eth0").map (fun st => st.BytesRx) =
      some 99 := by
  refine ⟨?_, ?_, ?_⟩
  · simp [getInterfacesP]
  · rfl
  · rfl

/-- C3 (amended): `GetInterfaces` and `GetPings` return a fresh map whose
values are the very pointers stored in the Store (so mutating a pointed-to
struct through such a snapshot mutates stored state — the counterexample);
`GetDevices` instead allocates a copy of every device struct, so writing any
value through any address of its returned snapshot leaves every value
readable through the Store's own map unchanged. -/
theorem snapshot_copy_semantics :
    (∀ (s : PtrStore InterfaceStats), getInterfacesP s = s.entries) ∧
    (∀ (s : PtrStore PingStats), getPingsP s = s.entries) ∧
    (∀ (s : PtrStore Device) (now : Int), s.valid →
      ∀ (k : String) (a : Nat), (k, a) ∈ (getDevicesP now s).entries →
      ∀ (v : Device) (p : String × Nat), p ∈ s.entries →
        heapGet (heapSet (getDevicesP now s).heap a v) p.2 =
          heapGet s.heap p.2) := by
  refine ⟨?_, ?_, ?_⟩
  · intro s
    simp [getInterfacesP]
  · intro s
    simp [getPingsP]
  · intro s now hv k a hka v p hp
    have hage : s.heap.length ≤ a :=
      getDevicesGo_entries_ge now s.entries [] s.heap s.heap.length le_rfl
        (by simp) (k, a) hka
    have hplt : p.2 < s.heap.length := hv p hp
    obtain ⟨x, hx⟩ := heapGet_of_lt hplt
    have hres : heapGet (getDevicesP now s).heap p.2 = some x :=
      getDevicesGo_heap_prefix now s.entries [] s.heap hx
    rw [heapGet_heapSet_ne (by omega) _ v, hres, hx]

/-- Witness for `snapshot_copy_semantics` at a concrete one-device store:
overwriting the freshly allocated snapshot cell leaves the stored device
readable through the store's entry unchanged. -/
theorem snapshot_copy_semantics_witness :
    getInterfacesP (⟨[("eth0", 0)], [⟨"eth0", 5, 0, 0, 0, 0, 0, [], 0⟩]⟩ :
        PtrStore InterfaceStats) = [("eth0", 0)] ∧
    heapGet (heapSet (getDevicesP 0
        (⟨[("10.0.0.5", 0)], [⟨"10.0.0.5", "aa", "h", 0, true, ""⟩]⟩ :
          PtrStore Device)).heap 1 ⟨"evil", "", "", 9, false, ""⟩) 0 =
      heapGet [⟨"10.0.0.5", "aa", "h", 0, true, ""⟩] 0 := by
  constructor
  · exact snapshot_copy_semantics.1 _
  · exact snapshot_copy_semantics.2.2
      (⟨[("10.0.0.5", 0)], [⟨"10.0.0.5", "aa", "h", 0, true, ""⟩]⟩ :
        PtrStore Device) 0
      (by intro p hp; simp at hp; simp [hp])
      "10.0.0.5" 1 (by decide) ⟨"evil", "", "", 9, false, ""⟩
      ("10.0.0.5", 0) (by decide)

/-- C5 (counterexample to the claim as stated): a device last seen exactly
5 minutes ago (`now − lastSeen = fiveMinutes`, so `now − lastSeen ≥ 5min`
holds) with stored `IsActive = true` is reported ACTIVE by `GetDevices`
(`Before` is strict), while the claim requires it to be reported inactive. -/
theorem device_boundary_counterexample :
    readKey (getDevicesP fiveMinutes
        (⟨[("10.0.0.7", 0)], [⟨"10.0.0.7", "", "", 0, true, ""⟩]⟩ :
          PtrStore Device)) "10.0.0.7" =
      some ⟨"10.0.0.7", "", "", 0, true, ""⟩ ∧
    fiveMinutes ≤ fiveMinutes - (0 : Int) := by
  constructor
  · decide
  · decide

/-- C5 (amended): the device snapshot built by `GetDevices` reports a stored
device inactive iff its stored `IsActive` flag is already false or
`now − lastSeen` exceeds 5 minutes STRICTLY (at exactly 5 minutes the stored
flag survives); every reachable store holds devices with `IsActive = true`,
for which the condition is exactly `now − lastSeen > 5min`.  Computing the
snapshot does not mutate the stored device: the store's heap cell still
holds the original value. -/
theorem device_active_snapshot :
    (∀ (now : Int) (d : Device),
      (snapshotDevice now d).IsActive = false ↔
        (d.IsActive = false ∨ fiveMinutes < now - d.LastSeen)) ∧
    (∀ (s : PtrStore Device) (now : Int), (s.entries.map Prod.fst).Nodup →
      ∀ (k : String) (a : Nat) (d : Device), (k, a) ∈ s.entries →
        heapGet s.heap a = some d →
        (∃ b, (k, b) ∈ (getDevicesP now s).entries ∧
          heapGet (getDevicesP now s).heap b = some (snapshotDevice now d)) ∧
        heapGet (getDevicesP now s).heap a = some d) := by
  constructor
  · intro now d
    unfold snapshotDevice
    by_cases h : d.LastSeen < now - fiveMinutes
    · rw [if_pos h]
      simp only [show ({ d with IsActive := false } : Device).IsActive = false
        from rfl]
      constructor
      · intro _
        right
        omega
      · intro _
        trivial
    · rw [if_neg h]
      constructor
      · intro hd
        exact Or.inl hd
      · rintro (hd | hd)
        · exact hd
        · omega
  · intro s now hnd k a d hka hga
    exact ⟨getDevicesGo_mem now s.entries [] s.heap k a d hka hnd hga,
      getDevicesGo_heap_prefix now s.entries [] s.heap hga⟩

/-- Witness for `device_active_snapshot`: a device 6 minutes stale with the
flag stored true is reported inactive; in a concrete one-device store the
snapshot contains its adjusted copy and the stored cell is untouched. -/
theorem device_active_snapshot_witness :
    ((snapshotDevice 360000000000 ⟨"10.0.0.8", "", "", 0, true, ""⟩).IsActive =
        false ↔
      ((⟨"10.0.0.8", "", "", 0, true, ""⟩ : Device).IsActive = false ∨
        fiveMinutes < 360000000000 - (0 : Int))) ∧
    ((∃ b, ("10.0.0.8", b) ∈ (getDevicesP 360000000000
        (⟨[("10.0.0.8", 0)], [⟨"10.0.0.8", "", "", 0, true, ""⟩]⟩ :
          PtrStore Device)).entries ∧
      heapGet (getDevicesP 360000000000
        (⟨[("10.0.0.8", 0)], [⟨"10.0.0.8", "", "", 0, true, ""⟩]⟩ :
          PtrStore Device)).heap b =
        some (snapshotDevice 360000000000 ⟨"10.0.0.8", "", "", 0, true, ""⟩)) ∧
      heapGet (getDevicesP 360000000000
        (⟨[("10.0.0.8", 0)], [⟨"10.0.0.8", "", "", 0, true, ""⟩]⟩ :
          PtrStore Device)).heap 0 =
        some ⟨"10.0.0.8", "", "", 0, true, ""⟩) :=
  ⟨device_active_snapshot.1 360000000000 ⟨"10.0.0.8", "", "", 0, true, ""⟩,
    device_active_snapshot.2
      (⟨[("10.0.0.8", 0)], [⟨"10.0.0.8", "", "", 0, true, ""⟩]⟩ :
        PtrStore Device) 360000000000 (by decide) "10.0.0.8" 0
      ⟨"10.0.0.8", "", "", 0, true, ""⟩ (by decide) (by decide)⟩
